import Mathlib

/-!
# Verification of the OLED frame-buffer core of `rpi-pico-libraries`

A shallow embedding of the SSD1306 / SH1106 OLED driver pair
(`src/ssd1306/ssd1306_i2c.c`, `src/sh1106/sh1106_i2c.c`) of the
`rpi-pico-libraries` repository, together with proofs about the
frame-buffer graphics layer: pixel addressing, Bresenham line drawing,
font blitting, render-area arithmetic, the SH1106 column-offset quirk,
and the deinitialization command sequence.

Modelling conventions:

* A frame buffer (`uint8_t *buf`) is a `List Nat` of byte values; the
  display invariant is a length of `pages * width = 8 * 128 = 1024`
  bytes, carried as a hypothesis where a theorem needs it.
* C `int` / `int16_t` coordinates are unbounded `Int` (all arithmetic
  performed on them by this code stays far from the 16/32-bit ranges
  whenever the inputs do).
* `uint8_t` values are `Nat` reduced `% 256` exactly where the C code
  truncates (storing into a `uint8_t` array slot).
* The SSD1306 `SetPixel` begins with
  `assert(x >= 0 && x < SSD1306_WIDTH && y >= 0 && y < SSD1306_HEIGHT)`;
  an execution that fails the assertion (and so aborts) is modelled as
  `none`.  The SH1106 variant instead returns early, so it is total.
* Hardware side effects (`i2c_write_blocking`, `gpio_*`) are modelled as
  an emitted trace of `IOEvent`s.
-/

namespace RpiPico

/-- A frame buffer: the bytes behind `uint8_t *buf`. -/
abbrev Buf := List Nat

/-- `SSD1306_WIDTH` from `ssd1306_i2c.h`. -/
def SSD1306_WIDTH : Nat := 128

/-- `SSD1306_HEIGHT` from `ssd1306_i2c.h`. -/
def SSD1306_HEIGHT : Nat := 64

/-- `SH1106_WIDTH` from `sh1106_i2c.h`. -/
def SH1106_WIDTH : Nat := 128

/-- `SH1106_HEIGHT` from `sh1106_i2c.h`. -/
def SH1106_HEIGHT : Nat := 64

/-- `SH1106_COLUMN_OFFSET` from `sh1106_i2c.h`: the 2-pixel hardware
column offset of the SH1106 controller. -/
def SH1106_COLUMN_OFFSET : Nat := 2

/-- `SetPixel` from `src/ssd1306/ssd1306_i2c.c` (lines 232-257).  The C
function `assert`s the coordinates in bounds before touching the buffer;
a failed assertion is modelled as `none`. -/
def SetPixel (buf : Buf) (x y : Int) (onb : Bool) : Option Buf :=
  if 0 ≤ x ∧ x < 128 ∧ 0 ≤ y ∧ y < 64 then
    let BytesPerRow := SSD1306_WIDTH
    let byte_idx : Nat := (y.toNat / 8) * BytesPerRow + x.toNat
    let byte : Nat := buf.getD byte_idx 0
    let byte' : Nat :=
      if onb then byte ||| (1 <<< (y.toNat % 8))
      else byte &&& (255 ^^^ (1 <<< (y.toNat % 8)))
    some (buf.set byte_idx byte')
  else none

/-- `SH1106_SetPixel` from `src/sh1106/sh1106_i2c.c` (lines 141-160):
silent no-op when the coordinates are out of bounds. -/
def SH1106_SetPixel (buf : Buf) (x y : Int) (onb : Bool) : Buf :=
  if x < 0 ∨ 128 ≤ x ∨ y < 0 ∨ 64 ≤ y then buf
  else
    let BytesPerRow := SH1106_WIDTH
    let byte_idx : Nat := (y.toNat / 8) * BytesPerRow + x.toNat
    let byte : Nat := buf.getD byte_idx 0
    let byte' : Nat :=
      if onb then byte ||| (1 <<< (y.toNat % 8))
      else byte &&& (255 ^^^ (1 <<< (y.toNat % 8)))
    buf.set byte_idx byte'

/-- Read pixel `(x, y)` back through the addressing formula of the data
model: bit `y % 8` of byte `(y / 8) * width + x`. -/
def GetPixel (buf : Buf) (x y : Nat) : Bool :=
  (buf.getD ((y / 8) * 128 + x) 0).testBit (y % 8)

/-! ## List and bit helper lemmas -/

theorem getD_set_self (l : List Nat) (i a d : Nat) (h : i < l.length) :
    (l.set i a).getD i d = a := by
  simp [List.getD, List.getElem?_set_self, h]

theorem getD_set_ne (l : List Nat) (i j a d : Nat) (h : i ≠ j) :
    (l.set i a).getD j d = l.getD j d := by
  simp [List.getD, List.getElem?_set_ne h]

/-- Bit `k < 8` of the clear mask `255 ^ (1 <<< k)` is `false`. -/
theorem clearMask_testBit_self (k : Nat) (hk : k < 8) :
    ((255 : Nat) ^^^ (1 <<< k)).testBit k = false := by
  interval_cases k <;> decide

/-- Bit `j ≠ k` (with `j, k < 8`) of the clear mask is `true`. -/
theorem clearMask_testBit_ne (k j : Nat) (hk : k < 8) (hj : j < 8) (h : j ≠ k) :
    ((255 : Nat) ^^^ (1 <<< k)).testBit j = true := by
  interval_cases k <;> interval_cases j <;> first | rfl | exact absurd rfl h

/-- The clear mask is below 256, so its bits from 8 on are `false`. -/
theorem clearMask_testBit_high (k j : Nat) (hk : k < 8) (hj : 8 ≤ j) :
    ((255 : Nat) ^^^ (1 <<< k)).testBit j = false := by
  apply Nat.testBit_lt_two_pow
  calc (255 : Nat) ^^^ (1 <<< k) < 256 := by interval_cases k <;> decide
    _ ≤ 2 ^ j := by
        calc (256 : Nat) = 2 ^ 8 := rfl
          _ ≤ 2 ^ j := Nat.pow_le_pow_right (by omega) hj

/-- The byte index used by both drivers, as a function of in-bounds
natural coordinates. -/
def pixelByteIdx (x y : Nat) : Nat := (y / 8) * 128 + x

theorem pixelByteIdx_lt (x y : Nat) (hx : x < 128) (hy : y < 64) :
    pixelByteIdx x y < 1024 := by
  unfold pixelByteIdx; omega

theorem pixelByteIdx_inj (x y x' y' : Nat) (hx : x < 128) (hx' : x' < 128)
    (h : pixelByteIdx x y = pixelByteIdx x' y') : x = x' ∧ y / 8 = y' / 8 := by
  unfold pixelByteIdx at h; omega

/-- In-bounds agreement of the two drivers' pixel writers: inside the
display the SSD1306 assertion passes and both bodies perform the same
byte update. -/
theorem setPixel_eq_sh (buf : Buf) (x y : Int) (onb : Bool)
    (hx0 : 0 ≤ x) (hx : x < 128) (hy0 : 0 ≤ y) (hy : y < 64) :
    SetPixel buf x y onb = some (SH1106_SetPixel buf x y onb) := by
  unfold SetPixel SH1106_SetPixel
  rw [if_pos ⟨hx0, hx, hy0, hy⟩, if_neg (by omega)]
  rfl

/-- Out of bounds, the SH1106 writer leaves the buffer untouched and the
SSD1306 writer fails its assertion. -/
theorem setPixel_oob (buf : Buf) (x y : Int) (onb : Bool)
    (h : x < 0 ∨ 128 ≤ x ∨ y < 0 ∨ 64 ≤ y) :
    SH1106_SetPixel buf x y onb = buf ∧ SetPixel buf x y onb = none := by
  constructor
  · unfold SH1106_SetPixel; rw [if_pos h]
  · unfold SetPixel; rw [if_neg (by omega)]

theorem sh_setPixel_length (buf : Buf) (x y : Int) (onb : Bool) :
    (SH1106_SetPixel buf x y onb).length = buf.length := by
  unfold SH1106_SetPixel
  split
  · rfl
  · exact List.length_set ..

/-- Read-back: an in-bounds write is visible through the `(page, column,
bit)` addressing formula. -/
theorem sh_setPixel_get_self (buf : Buf) (x y : Nat) (onb : Bool)
    (hx : x < 128) (hy : y < 64) (hlen : buf.length = 1024) :
    GetPixel (SH1106_SetPixel buf x y onb) x y = onb := by
  have hidx : (y / 8) * 128 + x < buf.length := by rw [hlen]; omega
  unfold SH1106_SetPixel GetPixel
  rw [if_neg (by omega)]
  simp only [Int.toNat_ofNat, SH1106_WIDTH]
  rw [getD_set_self _ _ _ _ hidx]
  cases onb with
  | true =>
      rw [if_pos rfl]
      rw [Nat.testBit_or, Nat.shiftLeft_eq, one_mul, Nat.testBit_two_pow_self,
        Bool.or_true]
  | false =>
      rw [if_neg Bool.false_ne_true]
      rw [Nat.testBit_and, clearMask_testBit_self (y % 8) (Nat.mod_lt y (by omega)),
        Bool.and_false]

/-- Frame rule at the bit level: writing pixel `(x', y')` leaves every
bit other than `(pixelByteIdx x' y', y' % 8)` of a byte-valued buffer
unchanged. -/
theorem sh_setPixel_testBit_ne (buf : Buf) (x' y' : Nat) (onb : Bool)
    (hx' : x' < 128) (hy' : y' < 64) (hbytes : ∀ b ∈ buf, b < 256)
    (i j : Nat) (hne : ¬(i = pixelByteIdx x' y' ∧ j = y' % 8)) :
    ((SH1106_SetPixel buf x' y' onb).getD i 0).testBit j =
      (buf.getD i 0).testBit j := by
  unfold SH1106_SetPixel
  rw [if_neg (by omega)]
  simp only [Int.toNat_ofNat, SH1106_WIDTH]
  rcases Decidable.em (i = (y' / 8) * 128 + x') with hi | hi
  · subst hi
    rcases Decidable.em ((y' / 8) * 128 + x' < buf.length) with hlt | hlt
    · rw [getD_set_self _ _ _ _ hlt]
      have hj : j ≠ y' % 8 := by
        intro hj; exact hne ⟨rfl, hj⟩
      have hk8 : y' % 8 < 8 := Nat.mod_lt y' (by omega)
      have hbyte : buf.getD ((y' / 8) * 128 + x') 0 < 256 := by
        rw [List.getD_eq_getElem buf 0 hlt]
        exact hbytes _ (List.getElem_mem hlt)
      cases onb with
      | true =>
          rw [if_pos rfl]
          rw [Nat.testBit_or, Nat.shiftLeft_eq, one_mul,
            Nat.testBit_two_pow_of_ne (fun h => hj h.symm), Bool.or_false]
      | false =>
          rw [if_neg Bool.false_ne_true]
          rw [Nat.testBit_and]
          rcases Nat.lt_or_ge j 8 with hj8 | hj8
          · rw [clearMask_testBit_ne (y' % 8) j hk8 hj8 hj, Bool.and_true]
          · rw [clearMask_testBit_high (y' % 8) j hk8 hj8, Bool.and_false]
            exact (Nat.testBit_lt_two_pow (by
              calc buf.getD ((y' / 8) * 128 + x') 0 < 256 := hbyte
                _ = 2 ^ 8 := rfl
                _ ≤ 2 ^ j := Nat.pow_le_pow_right (by omega) hj8)).symm
    · rw [List.set_eq_of_length_le (by omega)]
  · rw [getD_set_ne _ _ _ _ _ (fun h => hi h.symm)]

/-- The all-zero 128x64 frame buffer (`pages * width = 1024` bytes). -/
def zeroBuf : Buf := List.replicate 1024 0

theorem zeroBuf_length : zeroBuf.length = 1024 := List.length_replicate ..

theorem zeroBuf_bytes : ∀ b ∈ zeroBuf, b < 256 := by
  intro b hb
  rw [List.eq_of_mem_replicate hb]
  omega

/-! ## Claim C2: set_pixel round trip and out-of-bounds behaviour -/

/-- C2 counterexample: the claim says out-of-bounds `set_pixel` leaves
the buffer byte-for-byte unchanged for **both** variants, but the
SSD1306 `SetPixel` has no bounds guard, only
`assert(x >= 0 && ...)`: at `(x, y) = (-1, 0)` the assertion fails (the
execution aborts, modelled `none`) instead of returning the buffer
unchanged. -/
theorem C2_counterexample : SetPixel zeroBuf (-1) 0 true = none := rfl

/-- C2 (amended): for every 1024-byte buffer and in-bounds `(x, y)`,
setting then reading bit `y % 8` of byte `(y / 8) * width + x` returns
`true`, and clearing returns `false`, identically in both variants (the
SSD1306 `SetPixel` passes its assertion and performs the same update);
for out-of-bounds `(x, y)`, `SH1106_SetPixel` leaves the buffer
byte-for-byte unchanged, while the SSD1306 `SetPixel` fails its
assertion instead. -/
theorem C2_set_pixel_addressing :
    (∀ (buf : Buf) (x y : Nat) (onb : Bool),
      buf.length = 1024 → x < 128 → y < 64 →
        GetPixel (SH1106_SetPixel buf x y true) x y = true ∧
        GetPixel (SH1106_SetPixel buf x y false) x y = false ∧
        SetPixel buf x y onb = some (SH1106_SetPixel buf x y onb)) ∧
    (∀ (buf : Buf) (x y : Int) (onb : Bool),
      x < 0 ∨ 128 ≤ x ∨ y < 0 ∨ 64 ≤ y →
        SH1106_SetPixel buf x y onb = buf ∧ SetPixel buf x y onb = none) := by
  constructor
  · intro buf x y onb hlen hx hy
    refine ⟨sh_setPixel_get_self buf x y true hx hy hlen,
      sh_setPixel_get_self buf x y false hx hy hlen,
      setPixel_eq_sh buf x y onb (by omega) (by omega) (by omega) (by omega)⟩
  · intro buf x y onb h
    exact setPixel_oob buf x y onb h

/-- C2 witness: the amended theorem applied at the concrete in-bounds
pixel `(3, 5)` and the concrete out-of-bounds pixel `(-1, 0)` of the
all-zero buffer. -/
theorem C2_set_pixel_addressing_witness :
    GetPixel (SH1106_SetPixel zeroBuf 3 5 true) 3 5 = true ∧
    SetPixel zeroBuf (-1) 0 false = none :=
  ⟨(C2_set_pixel_addressing.1 zeroBuf 3 5 true zeroBuf_length (by omega)
      (by omega)).1,
   (C2_set_pixel_addressing.2 zeroBuf (-1) 0 false (by omega)).2⟩

/-! ## Claim C6: set_pixel touches at most one bit -/

/-- C6 counterexample: the claim says an in-bounds `set_pixel` call
flips exactly one bit (the addressed bit changes value), but clearing an
already-clear pixel changes nothing: on the all-zero buffer,
`set_pixel(buf, 0, 0, false)` returns the buffer unchanged — zero bits
flip. -/
theorem C6_counterexample : SH1106_SetPixel zeroBuf 0 0 false = zeroBuf := rfl

/-- C6 (amended): an in-bounds `set_pixel` call changes **at most** one
bit: the buffer keeps its length, every bit other than bit `y % 8` of
byte `(y / 8) * width + x` is unchanged, and the addressed bit is set to
the requested value (so it flips exactly when its old value differs);
the SSD1306 `SetPixel` performs the identical update. -/
theorem C6_set_pixel_one_bit :
    ∀ (buf : Buf) (x y : Nat) (onb : Bool),
      buf.length = 1024 → (∀ b ∈ buf, b < 256) → x < 128 → y < 64 →
        (SH1106_SetPixel buf x y onb).length = buf.length ∧
        GetPixel (SH1106_SetPixel buf x y onb) x y = onb ∧
        (∀ i j : Nat, ¬(i = pixelByteIdx x y ∧ j = y % 8) →
          ((SH1106_SetPixel buf x y onb).getD i 0).testBit j =
            (buf.getD i 0).testBit j) ∧
        SetPixel buf x y onb = some (SH1106_SetPixel buf x y onb) := by
  intro buf x y onb hlen hbytes hx hy
  refine ⟨sh_setPixel_length buf x y onb,
    sh_setPixel_get_self buf x y onb hx hy hlen,
    fun i j hne => sh_setPixel_testBit_ne buf x y onb hx hy hbytes i j hne,
    setPixel_eq_sh buf x y onb (by omega) (by omega) (by omega) (by omega)⟩

/-- C6 witness: the amended theorem applied at pixel `(2, 9)` of the
all-zero buffer, with the frame conclusion read off at byte 0, bit 0. -/
theorem C6_set_pixel_one_bit_witness :
    GetPixel (SH1106_SetPixel zeroBuf 2 9 true) 2 9 = true ∧
    ((SH1106_SetPixel zeroBuf 2 9 true).getD 0 0).testBit 0 =
      ((zeroBuf : Buf).getD 0 0).testBit 0 :=
  ⟨(C6_set_pixel_one_bit zeroBuf 2 9 true zeroBuf_length zeroBuf_bytes
      (by omega) (by omega)).2.1,
   (C6_set_pixel_one_bit zeroBuf 2 9 true zeroBuf_length zeroBuf_bytes
      (by omega) (by omega)).2.2.1 0 0 (by unfold pixelByteIdx; omega)⟩

/-! ## Render areas and buffer-length computation -/

/-- `struct render_area` from `ssd1306_i2c.h`: four `uint8_t`
coordinates (represented as `Nat` values below 256) and an `int buflen`. -/
structure render_area where
  start_col : Nat
  end_col : Nat
  start_page : Nat
  end_page : Nat
  buflen : Int

/-- `struct sh1106_render_area` from `sh1106_i2c.h`: same layout. -/
structure sh1106_render_area where
  start_col : Nat
  end_col : Nat
  start_page : Nat
  end_page : Nat
  buflen : Int

/-- `calc_render_area_buflen` from `src/ssd1306/ssd1306_i2c.c` (lines
33-37).  The `uint8_t` fields are promoted to `int` in C, so the
arithmetic is signed and unclamped. -/
def calc_render_area_buflen (area : render_area) : render_area :=
  { area with
    buflen := ((area.end_col : Int) - area.start_col + 1) *
      ((area.end_page : Int) - area.start_page + 1) }

/-- `sh1106_calc_render_area_buflen` from `src/sh1106/sh1106_i2c.c`
(lines 24-27). -/
def sh1106_calc_render_area_buflen (area : sh1106_render_area) :
    sh1106_render_area :=
  { area with
    buflen := ((area.end_col : Int) - area.start_col + 1) *
      ((area.end_page : Int) - area.start_page + 1) }

/-- C7: for every valid rectangle both drivers' `calc_render_area_buflen`
set `buflen` to `(end_col - start_col + 1) * (end_page - start_page + 1)`,
and recomputing after replacing the rectangle (whatever stale `buflen`
the struct carried) always reflects the new rectangle. -/
theorem C7_calc_render_area_buflen :
    ∀ (a : render_area) (b : sh1106_render_area),
      a.start_col ≤ a.end_col → a.end_col ≤ 127 →
      a.start_page ≤ a.end_page → a.end_page ≤ 7 →
      b.start_col ≤ b.end_col → b.end_col ≤ 127 →
      b.start_page ≤ b.end_page → b.end_page ≤ 7 →
        ((calc_render_area_buflen a).buflen =
          ((a.end_col : Int) - a.start_col + 1) *
            ((a.end_page : Int) - a.start_page + 1) ∧
         (sh1106_calc_render_area_buflen b).buflen =
          ((b.end_col : Int) - b.start_col + 1) *
            ((b.end_page : Int) - b.start_page + 1)) ∧
        (∀ sc ec sp ep : Nat,
          sc ≤ ec → ec ≤ 127 → sp ≤ ep → ep ≤ 7 →
          (calc_render_area_buflen
              { a with start_col := sc, end_col := ec,
                       start_page := sp, end_page := ep }).buflen =
            ((ec : Int) - sc + 1) * ((ep : Int) - sp + 1) ∧
          (sh1106_calc_render_area_buflen
              { b with start_col := sc, end_col := ec,
                       start_page := sp, end_page := ep }).buflen =
            ((ec : Int) - sc + 1) * ((ep : Int) - sp + 1)) := by
  intro a b _ _ _ _ _ _ _ _
  exact ⟨⟨rfl, rfl⟩, fun sc ec sp ep _ _ _ _ => ⟨rfl, rfl⟩⟩

/-- C7 witness: the full-screen rectangle of both drivers yields
`buflen = 128 * 8 = 1024`, and mutating it to a 2x2 rectangle and
recomputing yields 4. -/
theorem C7_calc_render_area_buflen_witness :
    (calc_render_area_buflen
        ⟨0, 127, 0, 7, 0⟩).buflen = 1024 ∧
    (sh1106_calc_render_area_buflen
        { (⟨0, 127, 0, 7, 0⟩ : sh1106_render_area) with
          start_col := 10, end_col := 11,
          start_page := 2, end_page := 3 }).buflen = 4 := by
  have h := C7_calc_render_area_buflen ⟨0, 127, 0, 7, 0⟩ ⟨0, 127, 0, 7, 0⟩
    (by decide) (by decide) (by decide) (by decide)
    (by decide) (by decide) (by decide) (by decide)
  exact ⟨by rw [h.1.1]; norm_num,
         by rw [(h.2 10 11 2 3 (by omega) (by omega) (by omega)
           (by omega)).2]; norm_num⟩

/-! ## Hardware side-effect traces -/

/-- One observable hardware side effect: an I2C write transaction
(`i2c_write_blocking`) or a GPIO reconfiguration. -/
inductive IOEvent where
  | i2cWrite (addr : Nat) (bytes : List Nat)
  | gpioSetFunction (pin func : Nat)
  | gpioSetDir (pin : Nat) (out : Bool)
  | gpioPut (pin : Nat) (value : Nat)
  deriving DecidableEq

/-- `SH1106_I2C_ADDR` from `sh1106_i2c.h`. -/
def SH1106_I2C_ADDR : Nat := 0x3C

/-- `SH1106_send_cmd`: one control byte `0x80` followed by the command. -/
def SH1106_send_cmd (cmd : Nat) : List IOEvent :=
  [.i2cWrite SH1106_I2C_ADDR [0x80, cmd]]

/-- `SH1106_send_cmd_list`: sequential `SH1106_send_cmd` per byte. -/
def SH1106_send_cmd_list (buf : List Nat) : List IOEvent :=
  buf.flatMap SH1106_send_cmd

/-- `SH1106_send_buf`: one data-mode byte `0x40` followed by `buflen`
buffer bytes, in a single I2C transaction. -/
def SH1106_send_buf (buf : List Nat) (buflen : Nat) : List IOEvent :=
  [.i2cWrite SH1106_I2C_ADDR (0x40 :: buf.take buflen)]

/-- `sh1106_render` from `src/sh1106/sh1106_i2c.c` (lines 111-124): the
addressing command list adds `SH1106_COLUMN_OFFSET` to both column
bounds (each sum is stored into a `uint8_t` slot, hence `% 256`),
followed by the buffer slice. -/
def sh1106_render (buf : Buf) (area : sh1106_render_area) : List IOEvent :=
  let cmds : List Nat :=
    [0x21,
     (area.start_col + SH1106_COLUMN_OFFSET) % 256,
     (area.end_col + SH1106_COLUMN_OFFSET) % 256,
     0x22,
     area.start_page,
     area.end_page]
  SH1106_send_cmd_list cmds ++ SH1106_send_buf buf area.buflen.toNat

/-- `sh1106_render_full_screen` from `src/sh1106/sh1106_i2c.c` (lines
126-139): per page, a page-start command and the two column-nibble
commands carrying `SH1106_COLUMN_OFFSET`, then one full-width page of
data. -/
def sh1106_render_full_screen (buf : Buf) : List IOEvent :=
  (List.range 8).flatMap (fun page =>
    SH1106_send_cmd (0xB0 + page) ++
    SH1106_send_cmd (0x00 ||| (SH1106_COLUMN_OFFSET &&& 0x0F)) ++
    SH1106_send_cmd (0x10 ||| ((SH1106_COLUMN_OFFSET >>> 4) &&& 0x0F)) ++
    SH1106_send_buf (buf.drop (page * SH1106_WIDTH)) SH1106_WIDTH)

/-- C3: the SH1106 render path emits `logical column + 2`, never the
logical column itself: the full command stream of `sh1106_render`, the
`start_col = 0` corollary (the emitted column is
`SH1106_COLUMN_OFFSET`, not zero), and the per-page column-nibble
commands of `sh1106_render_full_screen` (low nibble `0x02`, high nibble
`0x10`, i.e. column `SH1106_COLUMN_OFFSET`). -/
theorem C3_sh1106_column_offset :
    ∀ (buf : Buf) (area : sh1106_render_area),
      area.start_col ≤ 127 → area.end_col ≤ 127 →
      sh1106_render buf area =
        [.i2cWrite SH1106_I2C_ADDR [0x80, 0x21],
         .i2cWrite SH1106_I2C_ADDR [0x80, area.start_col + SH1106_COLUMN_OFFSET],
         .i2cWrite SH1106_I2C_ADDR [0x80, area.end_col + SH1106_COLUMN_OFFSET],
         .i2cWrite SH1106_I2C_ADDR [0x80, 0x22],
         .i2cWrite SH1106_I2C_ADDR [0x80, area.start_page],
         .i2cWrite SH1106_I2C_ADDR [0x80, area.end_page],
         .i2cWrite SH1106_I2C_ADDR (0x40 :: buf.take area.buflen.toNat)] ∧
      (area.start_col = 0 →
        (sh1106_render buf area)[1]? =
          some (.i2cWrite SH1106_I2C_ADDR [0x80, SH1106_COLUMN_OFFSET])) ∧
      (∀ p : Nat, p < 8 →
        ((sh1106_render_full_screen buf).drop (4 * p)).take 3 =
          [.i2cWrite SH1106_I2C_ADDR [0x80, 0xB0 + p],
           .i2cWrite SH1106_I2C_ADDR [0x80, SH1106_COLUMN_OFFSET],
           .i2cWrite SH1106_I2C_ADDR [0x80, 0x10]]) := by
  intro buf area hsc hec
  have hmain : sh1106_render buf area =
      [.i2cWrite SH1106_I2C_ADDR [0x80, 0x21],
       .i2cWrite SH1106_I2C_ADDR [0x80, area.start_col + SH1106_COLUMN_OFFSET],
       .i2cWrite SH1106_I2C_ADDR [0x80, area.end_col + SH1106_COLUMN_OFFSET],
       .i2cWrite SH1106_I2C_ADDR [0x80, 0x22],
       .i2cWrite SH1106_I2C_ADDR [0x80, area.start_page],
       .i2cWrite SH1106_I2C_ADDR [0x80, area.end_page],
       .i2cWrite SH1106_I2C_ADDR (0x40 :: buf.take area.buflen.toNat)] := by
    unfold sh1106_render SH1106_send_cmd_list SH1106_send_cmd SH1106_send_buf
    rw [Nat.mod_eq_of_lt (show area.start_col + SH1106_COLUMN_OFFSET < 256 by
      unfold SH1106_COLUMN_OFFSET; omega)]
    rw [Nat.mod_eq_of_lt (show area.end_col + SH1106_COLUMN_OFFSET < 256 by
      unfold SH1106_COLUMN_OFFSET; omega)]
    rfl
  refine ⟨hmain, ?_, ?_⟩
  · intro h0
    rw [hmain, h0]
    rfl
  · intro p hp
    interval_cases p <;> rfl

/-- C3 witness: `sh1106_render` on the full-screen rectangle with
`start_col = 0` emits column value 2 (the offset), and page 0 of the
full-screen path selects column 2 as well. -/
theorem C3_sh1106_column_offset_witness :
    (sh1106_render zeroBuf ⟨0, 127, 0, 7, 1024⟩)[1]? =
      some (.i2cWrite SH1106_I2C_ADDR [0x80, SH1106_COLUMN_OFFSET]) ∧
    ((sh1106_render_full_screen zeroBuf).drop 0).take 3 =
      [.i2cWrite SH1106_I2C_ADDR [0x80, 0xB0],
       .i2cWrite SH1106_I2C_ADDR [0x80, SH1106_COLUMN_OFFSET],
       .i2cWrite SH1106_I2C_ADDR [0x80, 0x10]] := by
  have h := C3_sh1106_column_offset zeroBuf ⟨0, 127, 0, 7, 1024⟩
    (by decide) (by decide)
  exact ⟨h.2.1 rfl, h.2.2 0 (by omega)⟩

/-! ## SSD1306 device state and deinitialization -/

/-- `ssd1306_i2c_config_t` from `ssd1306_i2c.h` (the opaque
`i2c_inst_t *` port is not represented; it only selects a bus). -/
structure ssd1306_i2c_config_t where
  i2c_address : Nat
  sda_pin : Nat
  scl_pin : Nat
  baudrate : Nat

/-- `ssd1306_device_t` from `ssd1306_i2c.h`. -/
structure ssd1306_device_t where
  config : ssd1306_i2c_config_t
  initialized : Bool

/-- `GPIO_FUNC_SIO` of the pico-sdk (value 5). -/
def GPIO_FUNC_SIO : Nat := 5

/-- `SSD1306_deinit` from `src/ssd1306/ssd1306_i2c.c` (lines 147-172):
guarded on `initialized`; emits the raw display-off byte `0xAE`, the
1025-byte clear transaction `{0x40, 0, ..., 0}`, then reconfigures both
I2C pins as driven-low outputs, and clears `initialized`.  (The C null
check on the device pointer has no counterpart for a by-value device.) -/
def SSD1306_deinit (device : ssd1306_device_t) :
    ssd1306_device_t × List IOEvent :=
  if ¬device.initialized then (device, [])
  else
    ({ device with initialized := false },
     [.i2cWrite device.config.i2c_address [0xAE],
      .i2cWrite device.config.i2c_address (0x40 :: List.replicate 1024 0),
      .gpioSetFunction device.config.sda_pin GPIO_FUNC_SIO,
      .gpioSetFunction device.config.scl_pin GPIO_FUNC_SIO,
      .gpioSetDir device.config.sda_pin true,
      .gpioSetDir device.config.scl_pin true,
      .gpioPut device.config.sda_pin 0,
      .gpioPut device.config.scl_pin 0])

/-- C4: deinit of an initialized device emits, in order, the display-off
command, one all-zero data block of the full 1024-byte buffer length,
then the line-safing GPIO sequence, and marks the device uninitialized;
a second deinit on the resulting device emits nothing and changes
nothing. -/
theorem C4_deinit :
    ∀ device : ssd1306_device_t, device.initialized = true →
      SSD1306_deinit device =
        ({ device with initialized := false },
         [.i2cWrite device.config.i2c_address [0xAE],
          .i2cWrite device.config.i2c_address (0x40 :: List.replicate 1024 0),
          .gpioSetFunction device.config.sda_pin GPIO_FUNC_SIO,
          .gpioSetFunction device.config.scl_pin GPIO_FUNC_SIO,
          .gpioSetDir device.config.sda_pin true,
          .gpioSetDir device.config.scl_pin true,
          .gpioPut device.config.sda_pin 0,
          .gpioPut device.config.scl_pin 0]) ∧
      SSD1306_deinit (SSD1306_deinit device).1 =
        ((SSD1306_deinit device).1, []) := by
  intro device hinit
  have h1 : SSD1306_deinit device =
      ({ device with initialized := false },
       [.i2cWrite device.config.i2c_address [0xAE],
        .i2cWrite device.config.i2c_address (0x40 :: List.replicate 1024 0),
        .gpioSetFunction device.config.sda_pin GPIO_FUNC_SIO,
        .gpioSetFunction device.config.scl_pin GPIO_FUNC_SIO,
        .gpioSetDir device.config.sda_pin true,
        .gpioSetDir device.config.scl_pin true,
        .gpioPut device.config.sda_pin 0,
        .gpioPut device.config.scl_pin 0]) := by
    unfold SSD1306_deinit
    rw [if_neg (by rw [hinit]; exact fun h => h rfl)]
  refine ⟨h1, ?_⟩
  rw [h1]
  unfold SSD1306_deinit
  rw [if_pos (by exact fun h => Bool.false_ne_true h)]

/-- C4 witness: a concrete initialized device (address `0x3C`, SDA pin
2, SCL pin 3) runs the full sequence once and is a no-op the second
time. -/
theorem C4_deinit_witness :
    SSD1306_deinit ⟨⟨0x3C, 2, 3, 400000⟩, true⟩ =
      (⟨⟨0x3C, 2, 3, 400000⟩, false⟩,
       [.i2cWrite 0x3C [0xAE],
        .i2cWrite 0x3C (0x40 :: List.replicate 1024 0),
        .gpioSetFunction 2 GPIO_FUNC_SIO,
        .gpioSetFunction 3 GPIO_FUNC_SIO,
        .gpioSetDir 2 true,
        .gpioSetDir 3 true,
        .gpioPut 2 0,
        .gpioPut 3 0]) ∧
    SSD1306_deinit ⟨⟨0x3C, 2, 3, 400000⟩, false⟩ =
      (⟨⟨0x3C, 2, 3, 400000⟩, false⟩, []) := by
  have h := C4_deinit ⟨⟨0x3C, 2, 3, 400000⟩, true⟩ rfl
  refine ⟨h.1, ?_⟩
  have h2 := h.2
  rw [h.1] at h2
  exact h2

/-! ## Font table and text rendering -/

/-- The 8x8 bitmap font array `font[]` shared by `ssd1306_font.h` /
`sh1106_font.h` (the two headers are byte-for-byte the same table):
51 glyphs of 8 column bytes each, bit 0 = top pixel. -/
def font : List Nat := [
  0x00, 0x00, 0x00, 0x00, 0x00, 0x00, 0x00, 0x00,
  0x7C, 0x12, 0x11, 0x11, 0x11, 0x12, 0x7C, 0x00,
  0x7F, 0x49, 0x49, 0x49, 0x49, 0x49, 0x36, 0x00,
  0x3E, 0x41, 0x41, 0x41, 0x41, 0x41, 0x22, 0x00,
  0x7F, 0x41, 0x41, 0x41, 0x41, 0x41, 0x3E, 0x00,
  0x7F, 0x49, 0x49, 0x49, 0x49, 0x49, 0x41, 0x00,
  0x7F, 0x09, 0x09, 0x09, 0x09, 0x09, 0x01, 0x00,
  0x3E, 0x41, 0x41, 0x49, 0x49, 0x49, 0x3A, 0x00,
  0x7F, 0x08, 0x08, 0x08, 0x08, 0x08, 0x7F, 0x00,
  0x41, 0x41, 0x41, 0x7F, 0x41, 0x41, 0x41, 0x00,
  0x20, 0x40, 0x40, 0x40, 0x40, 0x40, 0x3F, 0x00,
  0x7F, 0x08, 0x08, 0x14, 0x22, 0x41, 0x00, 0x00,
  0x7F, 0x40, 0x40, 0x40, 0x40, 0x40, 0x40, 0x00,
  0x7F, 0x02, 0x04, 0x08, 0x04, 0x02, 0x7F, 0x00,
  0x7F, 0x02, 0x04, 0x08, 0x10, 0x20, 0x7F, 0x00,
  0x3E, 0x41, 0x41, 0x41, 0x41, 0x41, 0x3E, 0x00,
  0x7F, 0x09, 0x09, 0x09, 0x09, 0x09, 0x06, 0x00,
  0x3E, 0x41, 0x41, 0x51, 0x21, 0x41, 0x5E, 0x00,
  0x7F, 0x09, 0x09, 0x19, 0x29, 0x49, 0x06, 0x00,
  0x26, 0x49, 0x49, 0x49, 0x49, 0x49, 0x32, 0x00,
  0x01, 0x01, 0x01, 0x7F, 0x01, 0x01, 0x01, 0x00,
  0x3F, 0x40, 0x40, 0x40, 0x40, 0x40, 0x3F, 0x00,
  0x0F, 0x10, 0x20, 0x40, 0x20, 0x10, 0x0F, 0x00,
  0x3F, 0x40, 0x20, 0x18, 0x20, 0x40, 0x3F, 0x00,
  0x41, 0x22, 0x14, 0x08, 0x14, 0x22, 0x41, 0x00,
  0x07, 0x08, 0x10, 0x60, 0x10, 0x08, 0x07, 0x00,
  0x41, 0x61, 0x51, 0x49, 0x45, 0x43, 0x41, 0x00,
  0x3E, 0x51, 0x49, 0x45, 0x43, 0x41, 0x3E, 0x00,
  0x00, 0x42, 0x42, 0x7F, 0x40, 0x40, 0x00, 0x00,
  0x42, 0x61, 0x51, 0x49, 0x45, 0x43, 0x42, 0x00,
  0x22, 0x41, 0x49, 0x49, 0x49, 0x49, 0x36, 0x00,
  0x18, 0x14, 0x12, 0x7F, 0x10, 0x10, 0x10, 0x00,
  0x27, 0x45, 0x45, 0x45, 0x45, 0x45, 0x39, 0x00,
  0x3C, 0x4A, 0x49, 0x49, 0x49, 0x49, 0x30, 0x00,
  0x01, 0x01, 0x71, 0x09, 0x05, 0x03, 0x01, 0x00,
  0x36, 0x49, 0x49, 0x49, 0x49, 0x49, 0x36, 0x00,
  0x06, 0x49, 0x49, 0x49, 0x49, 0x29, 0x1E, 0x00,
  0x00, 0x00, 0x00, 0x60, 0x60, 0x00, 0x00, 0x00,
  0x00, 0x00, 0x00, 0xA0, 0x60, 0x00, 0x00, 0x00,
  0x23, 0x13, 0x08, 0x64, 0x62, 0x36, 0x49, 0x00,
  0x00, 0x08, 0x08, 0x08, 0x08, 0x08, 0x00, 0x00,
  0x00, 0x00, 0x36, 0x36, 0x00, 0x00, 0x00, 0x00,
  0x00, 0x00, 0x56, 0x36, 0x00, 0x00, 0x00, 0x00,
  0x00, 0x00, 0x5F, 0x00, 0x00, 0x00, 0x00, 0x00,
  0x02, 0x01, 0x51, 0x09, 0x06, 0x00, 0x00, 0x00,
  0x20, 0x10, 0x08, 0x04, 0x02, 0x01, 0x00, 0x00,
  0x00, 0x1C, 0x22, 0x41, 0x00, 0x00, 0x00, 0x00,
  0x00, 0x41, 0x22, 0x1C, 0x00, 0x00, 0x00, 0x00,
  0x08, 0x08, 0x3E, 0x08, 0x08, 0x00, 0x00, 0x00,
  0x14, 0x14, 0x14, 0x14, 0x14, 0x00, 0x00, 0x00,
  0x80, 0x80, 0x80, 0x80, 0x80, 0x80, 0x80, 0x00]

/-- `GetFontIndex` from the font header: character-to-glyph-index map
(space = 0, A-Z = 1..26 case-folded, 0-9 = 27..36, punctuation =
37..50, everything else = 0). -/
def GetFontIndex (ch : Nat) : Nat :=
  if 65 <= ch && ch <= 90 then ch - 65 + 1
  else if 97 <= ch && ch <= 122 then ch - 97 + 1
  else if 48 <= ch && ch <= 57 then ch - 48 + 27
  else if ch == 32 then 0
  else if ch == 46 then 37
  else if ch == 44 then 38
  else if ch == 37 then 39
  else if ch == 45 then 40
  else if ch == 58 then 41
  else if ch == 59 then 42
  else if ch == 33 then 43
  else if ch == 63 then 44
  else if ch == 47 then 45
  else if ch == 40 then 46
  else if ch == 41 then 47
  else if ch == 43 then 48
  else if ch == 61 then 49
  else if ch == 95 then 50
  else 0

/-- C `toupper` (default locale) on a byte value. -/
def toupper (ch : Nat) : Nat :=
  if 97 <= ch && ch <= 122 then ch - 32 else ch

/-- `SH1106_WriteChar` from `src/sh1106/sh1106_i2c.c` (lines 188-215):
reject the whole 8x8 glyph if its box does not fit in
`[0, width-8] x [0, height-8]`; otherwise OR every set font bit into the
buffer through `SH1106_SetPixel` (column-major, 8 rows per column). -/
def SH1106_WriteChar (buf : Buf) (x y : Int) (ch : Nat) : Buf :=
  if x < 0 ∨ 128 - 8 < x ∨ y < 0 ∨ 64 - 8 < y then buf
  else
    let ch := toupper ch
    let font_idx := GetFontIndex ch
    (List.range 8).foldl (fun b col =>
      let font_col := font.getD (font_idx * 8 + col) 0
      (List.range 8).foldl (fun b row =>
        if font_col.testBit row then
          let pixel_x := x + (col : Int)
          let pixel_y := y + (row : Int)
          if pixel_x < 128 ∧ pixel_y < 64 then
            SH1106_SetPixel b pixel_x pixel_y true
          else b
        else b) b) buf

/-- `WriteChar` from `src/ssd1306/ssd1306_i2c.c` (lines 289-322): same
structure, but each pixel write goes through the asserting `SetPixel`,
so the computation lives in `Option`. -/
def WriteChar (buf : Buf) (x y : Int) (ch : Nat) : Option Buf :=
  if x < 0 ∨ 128 - 8 < x ∨ y < 0 ∨ 64 - 8 < y then some buf
  else
    let ch := toupper ch
    let font_idx := GetFontIndex ch
    (List.range 8).foldlM (fun b col =>
      let font_col := font.getD (font_idx * 8 + col) 0
      (List.range 8).foldlM (fun b row =>
        if font_col.testBit row then
          let pixel_x := x + (col : Int)
          let pixel_y := y + (row : Int)
          if pixel_x < 128 ∧ pixel_y < 64 then
            SetPixel b pixel_x pixel_y true
          else some b
        else some b) b) buf

/-- `SH1106_WriteString` from `src/sh1106/sh1106_i2c.c` (lines 217-225).
A C string is a list of bytes with the NUL terminator left implicit; the
loop runs `while (*str && current_x < SH1106_WIDTH - 8)`. -/
def SH1106_WriteString (buf : Buf) (x y : Int) : List Nat → Buf
  | [] => buf
  | ch :: str =>
    if ch ≠ 0 ∧ x < 128 - 8 then
      SH1106_WriteString (SH1106_WriteChar buf x y ch) (x + 8) y str
    else buf

/-- `WriteString` from `src/ssd1306/ssd1306_i2c.c` (lines 324-334): the
identical loop over the asserting `WriteChar`. -/
def WriteString (buf : Buf) (x y : Int) : List Nat → Option Buf
  | [] => some buf
  | ch :: str =>
    if ch ≠ 0 ∧ x < 128 - 8 then
      (WriteChar buf x y ch).bind (fun b => WriteString b (x + 8) y str)
    else some buf

/-! ## Fold helpers and driver agreement for text rendering -/

theorem foldlM_eq_some_foldl {α : Type} (f : Buf → α → Option Buf)
    (g : Buf → α → Buf) :
    ∀ (l : List α) (b : Buf), (∀ (b' : Buf) (a : α), a ∈ l → f b' a = some (g b' a)) →
      List.foldlM f b l = some (List.foldl g b l) := by
  intro l
  induction l with
  | nil => intro b _; rfl
  | cons a l ih =>
      intro b h
      have step : f b a = some (g b a) := h b a (List.mem_cons_self ..)
      calc List.foldlM f b (a :: l) = (f b a).bind (fun b' => List.foldlM f b' l) := rfl
        _ = List.foldlM f (g b a) l := by rw [step]; rfl
        _ = some (List.foldl g (g b a) l) :=
            ih (g b a) (fun b' a' ha' => h b' a' (List.mem_cons_of_mem _ ha'))

theorem foldl_preserve {α β : Type} (P : β → Prop) (g : β → α → β)
    (h : ∀ (b : β) (a : α), P b → P (g b a)) :
    ∀ (l : List α) (b : β), P b → P (l.foldl g b) := by
  intro l
  induction l with
  | nil => intro b hb; exact hb
  | cons a l ih => intro b hb; exact ih (g b a) (h b a hb)

/-- The two drivers' character blitters agree everywhere: inside the
guard every pixel the loops visit is in bounds, so the SSD1306
assertion never fires. -/
theorem writeChar_eq_sh (buf : Buf) (x y : Int) (ch : Nat) :
    WriteChar buf x y ch = some (SH1106_WriteChar buf x y ch) := by
  unfold WriteChar SH1106_WriteChar
  rcases Decidable.em (x < 0 ∨ 128 - 8 < x ∨ y < 0 ∨ 64 - 8 < y) with hg | hg
  · rw [if_pos hg, if_pos hg]
  · rw [if_neg hg, if_neg hg]
    push_neg at hg
    apply foldlM_eq_some_foldl
    intro b col _
    apply foldlM_eq_some_foldl
    intro b' row hrow
    have hrow8 : row < 8 := List.mem_range.mp hrow
    rcases Decidable.em ((font.getD (GetFontIndex (toupper ch) * 8 + col) 0).testBit row) with hbit | hbit
    · rw [if_pos hbit, if_pos hbit]
      rcases Decidable.em (x + (col : Int) < 128 ∧ y + (row : Int) < 64) with hpx | hpx
      · rw [if_pos hpx, if_pos hpx]
        exact setPixel_eq_sh b' (x + (col : Int)) (y + (row : Int)) true
          (by omega) hpx.1 (by omega) hpx.2
      · rw [if_neg hpx, if_neg hpx]
    · rw [if_neg hbit, if_neg hbit]

/-- The two drivers' string writers agree everywhere. -/
theorem writeString_eq_sh (buf : Buf) (x y : Int) (str : List Nat) :
    WriteString buf x y str = some (SH1106_WriteString buf x y str) := by
  induction str generalizing buf x with
  | nil => rfl
  | cons ch str ih =>
      unfold WriteString SH1106_WriteString
      rcases Decidable.em (ch ≠ 0 ∧ x < 128 - 8) with hc | hc
      · rw [if_pos hc, if_pos hc, writeChar_eq_sh, Option.some_bind]
        exact ih (SH1106_WriteChar buf x y ch) (x + 8)
      · rw [if_neg hc, if_neg hc]

/-- A rejected glyph box is a no-op. -/
theorem sh_writeChar_oob (buf : Buf) (x y : Int) (ch : Nat)
    (h : x < 0 ∨ 128 - 8 < x ∨ y < 0 ∨ 64 - 8 < y) :
    SH1106_WriteChar buf x y ch = buf := by
  unfold SH1106_WriteChar
  rw [if_pos h]

theorem sh_writeChar_length (buf : Buf) (x y : Int) (ch : Nat) :
    (SH1106_WriteChar buf x y ch).length = buf.length := by
  unfold SH1106_WriteChar
  rcases Decidable.em (x < 0 ∨ 128 - 8 < x ∨ y < 0 ∨ 64 - 8 < y) with hg | hg
  · rw [if_pos hg]
  · rw [if_neg hg]
    lift_lets
    extract_lets ch2 font_idx
    apply foldl_preserve (fun b : Buf => b.length = buf.length)
    · intro b col hb
      lift_lets
      extract_lets font_col
      apply foldl_preserve (fun b : Buf => b.length = buf.length)
      · intro b' row hb'
        dsimp only
        split
        · split
          · rw [sh_setPixel_length]; exact hb'
          · exact hb'
        · exact hb'
      · exact hb
    · rfl

theorem sh_writeString_length (buf : Buf) (x y : Int) (str : List Nat) :
    (SH1106_WriteString buf x y str).length = buf.length := by
  induction str generalizing buf x with
  | nil => rfl
  | cons ch str ih =>
      unfold SH1106_WriteString
      split
      · rw [ih (SH1106_WriteChar buf x y ch) (x + 8), sh_writeChar_length]
      · rfl

/-- Once the pen is at column `width - 8` or beyond, the loop writes
nothing. -/
theorem sh_writeString_stop (buf : Buf) (x y : Int) (str : List Nat)
    (h : 128 - 8 ≤ x) : SH1106_WriteString buf x y str = buf := by
  cases str with
  | nil => rfl
  | cons ch str =>
      unfold SH1106_WriteString
      rw [if_neg (by omega)]

theorem sh_writeString_nil (buf : Buf) (x y : Int) :
    SH1106_WriteString buf x y [] = buf := rfl

theorem sh_writeString_cons (buf : Buf) (x y : Int) (ch : Nat)
    (str : List Nat) :
    SH1106_WriteString buf x y (ch :: str) =
      if ch ≠ 0 ∧ x < 128 - 8 then
        SH1106_WriteString (SH1106_WriteChar buf x y ch) (x + 8) y str
      else buf := rfl

/-- Setting a pixel `true` can only OR bits in: every bit that was `true`
stays `true`. -/
theorem sh_setPixel_mono (buf : Buf) (x y : Int) (i j : Nat)
    (h : (buf.getD i 0).testBit j = true) :
    ((SH1106_SetPixel buf x y true).getD i 0).testBit j = true := by
  unfold SH1106_SetPixel
  split
  · exact h
  · dsimp only
    rw [if_pos rfl]
    rcases Decidable.em (y.toNat / 8 * SH1106_WIDTH + x.toNat = i) with hi | hi
    · subst hi
      rcases Nat.lt_or_ge (y.toNat / 8 * SH1106_WIDTH + x.toNat) buf.length
        with hlt | hge
      · rw [getD_set_self _ _ _ _ hlt, Nat.testBit_or, h, Bool.true_or]
      · rw [List.set_eq_of_length_le (by omega)]
        exact h
    · rw [getD_set_ne _ _ _ _ _ hi]
      exact h

/-- The glyph blitter only ORs pixels in: every buffer bit that is 1
before `SH1106_WriteChar` is still 1 after it. -/
theorem sh_writeChar_mono (buf : Buf) (x y : Int) (ch : Nat) (i j : Nat)
    (h : (buf.getD i 0).testBit j = true) :
    ((SH1106_WriteChar buf x y ch).getD i 0).testBit j = true := by
  unfold SH1106_WriteChar
  split
  · exact h
  · lift_lets
    extract_lets ch2 font_idx
    apply foldl_preserve (fun b : Buf => (b.getD i 0).testBit j = true)
    · intro b col hb
      lift_lets
      extract_lets font_col
      apply foldl_preserve (fun b : Buf => (b.getD i 0).testBit j = true)
      · intro b' row hb'
        dsimp only
        split
        · split
          · exact sh_setPixel_mono b' _ _ i j hb'
          · exact hb'
        · exact hb'
      · exact hb
    · exact h

/-! ## Claim C9: write_char never clears a pixel -/

/-- C9: `write_char` only ever sets pixels.  For every buffer, position
and character, every bit that is 1 before the call is still 1 after it
(the glyph is ORed on top of the existing contents), and the SSD1306
`WriteChar` performs the identical update as the SH1106 one. -/
theorem C9_write_char_monotone :
    ∀ (buf : Buf) (x y : Int) (ch : Nat),
      WriteChar buf x y ch = some (SH1106_WriteChar buf x y ch) ∧
      ∀ i j : Nat, (buf.getD i 0).testBit j = true →
        ((SH1106_WriteChar buf x y ch).getD i 0).testBit j = true :=
  fun buf x y ch =>
    ⟨writeChar_eq_sh buf x y ch,
     fun i j h => sh_writeChar_mono buf x y ch i j h⟩

/-- C9 witness: a pixel set at `(0, 0)` survives blitting the glyph `A`
at `(5, 5)` right over it. -/
theorem C9_write_char_monotone_witness :
    ((SH1106_WriteChar (SH1106_SetPixel zeroBuf 0 0 true) 5 5 65).getD 0
        0).testBit 0 = true :=
  (C9_write_char_monotone (SH1106_SetPixel zeroBuf 0 0 true) 5 5 65).2 0 0
    (by decide)

/-! ## Claim C1: write_string clipping at the right edge -/

/-- C1 counterexample: the claim says `write_string` at `x = width - 8 =
120` with a one-character string writes exactly one character, but the
loop condition `current_x < SSD1306_WIDTH - 8` is strict, so it writes
nothing — even though the glyph fits: `write_char` itself at `x = 120`
would draw (byte 120 of page 0 becomes `0x7C`, the first column of
`A`). -/
theorem C1_counterexample :
    SH1106_WriteString zeroBuf 120 0 [65] = zeroBuf ∧
    (SH1106_WriteChar zeroBuf 120 0 65).getD 120 0 = 124 ∧
    zeroBuf.getD 120 0 = 0 := by
  refine ⟨rfl, ?_, ?_⟩ <;> decide

/-- C1 (amended): `write_string` advances `x` by exactly 8 per character
and never partially clips a glyph, but its loop bound is strict: it
writes zero characters at `x = width - 4` **and** at `x = width - 8`; a
one-character string is written exactly when `x < width - 8`.  Both
driver variants behave identically. -/
theorem C1_write_string_clipping :
    ∀ (buf : Buf) (x y : Int) (ch : Nat) (str : List Nat),
      WriteString buf x y str = some (SH1106_WriteString buf x y str) ∧
      SH1106_WriteString buf 124 y str = buf ∧
      SH1106_WriteString buf 120 y str = buf ∧
      (ch ≠ 0 → x < 120 →
        SH1106_WriteString buf x y (ch :: str) =
          SH1106_WriteString (SH1106_WriteChar buf x y ch) (x + 8) y str) ∧
      (ch ≠ 0 → x < 120 →
        SH1106_WriteString buf x y [ch] = SH1106_WriteChar buf x y ch) := by
  intro buf x y ch str
  refine ⟨writeString_eq_sh buf x y str,
    sh_writeString_stop buf 124 y str (by omega),
    sh_writeString_stop buf 120 y str (by omega), ?_, ?_⟩
  · intro hch hx
    rw [sh_writeString_cons, if_pos ⟨hch, by omega⟩]
  · intro hch hx
    rw [sh_writeString_cons, if_pos ⟨hch, by omega⟩, sh_writeString_nil]

/-- C1 witness: at `x = 112 = width - 16` a one-character string writes
exactly one character, and at `x = 124 = width - 4` nothing is
written. -/
theorem C1_write_string_clipping_witness :
    SH1106_WriteString zeroBuf 112 0 [65] = SH1106_WriteChar zeroBuf 112 0 65 ∧
    SH1106_WriteString zeroBuf 124 0 [65] = zeroBuf :=
  ⟨(C1_write_string_clipping zeroBuf 112 0 65 []).2.2.2.2 (by omega) (by omega),
   (C1_write_string_clipping zeroBuf 112 0 65 [65]).2.1⟩

/-! ## Claim C10: write_string started at negative x -/

set_option maxRecDepth 8000 in
/-- C10 counterexample: the claim says every character whose position
lands in `[0, width - 8]` is drawn normally; but starting at `x = -8`,
the 17th character sits at exactly `width - 8 = 120` and the loop drops
it (16 spaces followed by `A`: the result is still all zero), even
though `write_char` at `x = 120` would draw it. -/
theorem C10_counterexample :
    SH1106_WriteString zeroBuf (-8) 0 (List.replicate 16 32 ++ [65]) =
      zeroBuf ∧
    (SH1106_WriteChar zeroBuf 120 0 65).getD 120 0 = 124 := by
  refine ⟨rfl, ?_⟩
  decide

/-- C10 (amended): for every starting `x < 0`, `write_string` stays
inside the buffer (the buffer keeps its length and the asserting SSD1306
variant never aborts, i.e. no out-of-bounds write is attempted);
characters at negative positions are individually suppressed by
`write_char`'s bounds check as no-ops; characters at positions in
`[0, width - 8)` are drawn normally, and the loop stops at the first
position `≥ width - 8` — so a character at exactly `width - 8` is
dropped, not drawn. -/
theorem C10_write_string_negative_start :
    ∀ (buf : Buf) (x y : Int) (ch : Nat) (str : List Nat),
      (SH1106_WriteString buf x y str).length = buf.length ∧
      WriteString buf x y str = some (SH1106_WriteString buf x y str) ∧
      (x < 0 → SH1106_WriteChar buf x y ch = buf) ∧
      (x < 0 → ch ≠ 0 →
        SH1106_WriteString buf x y (ch :: str) =
          SH1106_WriteString buf (x + 8) y str) ∧
      (120 ≤ x → SH1106_WriteString buf x y str = buf) ∧
      (0 ≤ x → x < 120 → ch ≠ 0 →
        SH1106_WriteString buf x y [ch] = SH1106_WriteChar buf x y ch) := by
  intro buf x y ch str
  refine ⟨sh_writeString_length buf x y str,
    writeString_eq_sh buf x y str,
    fun hx => sh_writeChar_oob buf x y ch (Or.inl hx), ?_,
    fun hx => sh_writeString_stop buf x y str (by omega), ?_⟩
  · intro hx hch
    rw [sh_writeString_cons, if_pos ⟨hch, by omega⟩,
      sh_writeChar_oob buf x y ch (Or.inl hx)]
  · intro _ hx hch
    rw [sh_writeString_cons, if_pos ⟨hch, by omega⟩, sh_writeString_nil]

/-- C10 witness: starting at `x = -8` with the two-character string
`AB`, the `A` (at position `-8`) is suppressed as a no-op and the string
reduces to drawing from `x = 0`; the buffer length is preserved. -/
theorem C10_write_string_negative_start_witness :
    SH1106_WriteString zeroBuf (-8) 0 [65, 66] =
      SH1106_WriteString zeroBuf 0 0 [66] ∧
    (SH1106_WriteString zeroBuf (-8) 0 [65, 66]).length = zeroBuf.length :=
  ⟨(C10_write_string_negative_start zeroBuf (-8) 0 65 [66]).2.2.2.1
      (by omega) (by omega),
   (C10_write_string_negative_start zeroBuf (-8) 0 65 [65, 66]).1⟩

/-! ## Bresenham line drawing

The two drivers' `DrawLine` / `SH1106_DrawLine` bodies are textually
identical `while (true)` loops; only the pixel writer differs.  The loop
body computes `e2 = 2 * err` once and then applies two sequential
conditional updates (`if (e2 >= dy) ... if (e2 <= dx) ...`); the three
embeddings below share those updates through `bresStepX` / `bresStepY` /
`bresStepErr`.  The C loop has no fuel; the embeddings take a fuel
argument and are run with fuel `dx - dy + 1`, which `bresVisit_spec`
proves sufficient, so the `none` (fuel ran out) case is unreachable. -/

/-- The `x0` update of one loop iteration: `if (e2 >= dy) x0 += sx`. -/
def bresStepX (x0 sx dx dy err : Int) : Int :=
  if dy ≤ 2 * err then x0 + sx else x0

/-- The `y0` update of one loop iteration: `if (e2 <= dx) y0 += sy`. -/
def bresStepY (y0 sy dx dy err : Int) : Int :=
  if 2 * err ≤ dx then y0 + sy else y0

/-- The `err` update of one loop iteration: `err += dy` under the first
condition, then `err += dx` under the second. -/
def bresStepErr (dx dy err : Int) : Int :=
  let err1 := if dy ≤ 2 * err then err + dy else err
  if 2 * err ≤ dx then err1 + dx else err1

/-- The sequence of points the Bresenham loop visits (the successive
values of `(x0, y0)` at the `SetPixel` call), with the fixed loop
parameters first and the mutable state `(x0, y0, err)` last. -/
def bresVisit (x1 y1 dx dy sx sy : Int) :
    Int → Int → Int → Nat → Option (List (Int × Int))
  | _, _, _, 0 => none
  | x0, y0, err, fuel + 1 =>
    if x0 = x1 ∧ y0 = y1 then some [(x0, y0)]
    else
      (bresVisit x1 y1 dx dy sx sy (bresStepX x0 sx dx dy err)
        (bresStepY y0 sy dx dy err) (bresStepErr dx dy err) fuel).map
        (fun ps => (x0, y0) :: ps)

/-- The loop of `SH1106_DrawLine` (lines 171-185 of `sh1106_i2c.c`). -/
def SH1106_drawLineLoop (onb : Bool) (x1 y1 dx dy sx sy : Int) :
    Buf → Int → Int → Int → Nat → Option Buf
  | _, _, _, _, 0 => none
  | buf, x0, y0, err, fuel + 1 =>
    let buf' := SH1106_SetPixel buf x0 y0 onb
    if x0 = x1 ∧ y0 = y1 then some buf'
    else
      SH1106_drawLineLoop onb x1 y1 dx dy sx sy buf' (bresStepX x0 sx dx dy err)
        (bresStepY y0 sy dx dy err) (bresStepErr dx dy err) fuel

/-- The loop of the SSD1306 `DrawLine` (lines 269-286 of
`ssd1306_i2c.c`): each plot goes through the asserting `SetPixel`; a
failed assertion aborts the whole call (inner `none`), while the outer
`none` marks fuel exhaustion. -/
def drawLineLoop (onb : Bool) (x1 y1 dx dy sx sy : Int) :
    Buf → Int → Int → Int → Nat → Option (Option Buf)
  | _, _, _, _, 0 => none
  | buf, x0, y0, err, fuel + 1 =>
    match SetPixel buf x0 y0 onb with
    | none => some none
    | some buf' =>
      if x0 = x1 ∧ y0 = y1 then some (some buf')
      else
        drawLineLoop onb x1 y1 dx dy sx sy buf' (bresStepX x0 sx dx dy err)
          (bresStepY y0 sy dx dy err) (bresStepErr dx dy err) fuel

/-- `SH1106_DrawLine` from `src/sh1106/sh1106_i2c.c` (lines 163-186). -/
def SH1106_DrawLine (buf : Buf) (x0 y0 x1 y1 : Int) (onb : Bool) :
    Option Buf :=
  let dx := |x1 - x0|
  let sx : Int := if x0 < x1 then 1 else -1
  let dy := -|y1 - y0|
  let sy : Int := if y0 < y1 then 1 else -1
  let err := dx + dy
  SH1106_drawLineLoop onb x1 y1 dx dy sx sy buf x0 y0 err ((dx - dy).toNat + 1)

/-- `DrawLine` from `src/ssd1306/ssd1306_i2c.c` (lines 259-287). -/
def DrawLine (buf : Buf) (x0 y0 x1 y1 : Int) (onb : Bool) :
    Option (Option Buf) :=
  let dx := |x1 - x0|
  let sx : Int := if x0 < x1 then 1 else -1
  let dy := -|y1 - y0|
  let sy : Int := if y0 < y1 then 1 else -1
  let err := dx + dy
  drawLineLoop onb x1 y1 dx dy sx sy buf x0 y0 err ((dx - dy).toNat + 1)

/-- The visited-point sequence of a full `draw_line` call, with the
loop-header initialization of both drivers. -/
def bresPoints (x0 y0 x1 y1 : Int) : Option (List (Int × Int)) :=
  let dx := |x1 - x0|
  let sx : Int := if x0 < x1 then 1 else -1
  let dy := -|y1 - y0|
  let sy : Int := if y0 < y1 then 1 else -1
  let err := dx + dy
  bresVisit x1 y1 dx dy sx sy x0 y0 err ((dx - dy).toNat + 1)

theorem bresVisit_succ (x1 y1 dx dy sx sy x0 y0 err : Int) (fuel : Nat) :
    bresVisit x1 y1 dx dy sx sy x0 y0 err (fuel + 1) =
      if x0 = x1 ∧ y0 = y1 then some [(x0, y0)]
      else
        (bresVisit x1 y1 dx dy sx sy (bresStepX x0 sx dx dy err)
          (bresStepY y0 sy dx dy err) (bresStepErr dx dy err) fuel).map
          (fun ps => (x0, y0) :: ps) := rfl

theorem sh_drawLineLoop_succ (onb : Bool)
    (x1 y1 dx dy sx sy : Int) (buf : Buf) (x0 y0 err : Int) (fuel : Nat) :
    SH1106_drawLineLoop onb x1 y1 dx dy sx sy buf x0 y0 err (fuel + 1) =
      if x0 = x1 ∧ y0 = y1 then some (SH1106_SetPixel buf x0 y0 onb)
      else
        SH1106_drawLineLoop onb x1 y1 dx dy sx sy
          (SH1106_SetPixel buf x0 y0 onb) (bresStepX x0 sx dx dy err)
          (bresStepY y0 sy dx dy err) (bresStepErr dx dy err) fuel := rfl

theorem drawLineLoop_succ (onb : Bool)
    (x1 y1 dx dy sx sy : Int) (buf : Buf) (x0 y0 err : Int) (fuel : Nat) :
    drawLineLoop onb x1 y1 dx dy sx sy buf x0 y0 err (fuel + 1) =
      match SetPixel buf x0 y0 onb with
      | none => some none
      | some buf' =>
        if x0 = x1 ∧ y0 = y1 then some (some buf')
        else
          drawLineLoop onb x1 y1 dx dy sx sy buf' (bresStepX x0 sx dx dy err)
            (bresStepY y0 sy dx dy err) (bresStepErr dx dy err) fuel := rfl

/-- The SH1106 loop folds its pixel writer over the visited points. -/
theorem sh_drawLineLoop_eq_visit (onb : Bool) (x1 y1 dx dy sx sy : Int) :
    ∀ (fuel : Nat) (buf : Buf) (x0 y0 err : Int),
      SH1106_drawLineLoop onb x1 y1 dx dy sx sy buf x0 y0 err fuel =
        (bresVisit x1 y1 dx dy sx sy x0 y0 err fuel).map
          (fun ps => ps.foldl (fun b p => SH1106_SetPixel b p.1 p.2 onb) buf) := by
  intro fuel
  induction fuel with
  | zero => intro buf x0 y0 err; rfl
  | succ fuel ih =>
      intro buf x0 y0 err
      rw [sh_drawLineLoop_succ, bresVisit_succ]
      rcases Decidable.em (x0 = x1 ∧ y0 = y1) with hb | hb
      · rw [if_pos hb, if_pos hb]
        rfl
      · rw [if_neg hb, if_neg hb, ih]
        rw [Option.map_map]
        cases bresVisit x1 y1 dx dy sx sy (bresStepX x0 sx dx dy err)
          (bresStepY y0 sy dx dy err) (bresStepErr dx dy err) fuel with
        | none => rfl
        | some ps => rfl

/-- When the visited points are known, the SSD1306 loop is the
`Option`-monadic fold of the asserting pixel writer over them. -/
theorem drawLineLoop_eq_visit (onb : Bool) (x1 y1 dx dy sx sy : Int) :
    ∀ (fuel : Nat) (buf : Buf) (x0 y0 err : Int) (ps : List (Int × Int)),
      bresVisit x1 y1 dx dy sx sy x0 y0 err fuel = some ps →
      drawLineLoop onb x1 y1 dx dy sx sy buf x0 y0 err fuel =
        some (List.foldlM (fun b p => SetPixel b p.1 p.2 onb) buf ps) := by
  intro fuel
  induction fuel with
  | zero => intro buf x0 y0 err ps h; exact Option.noConfusion h
  | succ fuel ih =>
      intro buf x0 y0 err ps h
      rw [bresVisit_succ] at h
      rw [drawLineLoop_succ]
      rcases Decidable.em (x0 = x1 ∧ y0 = y1) with hb | hb
      · rw [if_pos hb] at h
        have hps : [(x0, y0)] = ps := Option.some.inj h
        subst hps
        have hfold : List.foldlM (fun b p => SetPixel b p.1 p.2 onb) buf
            [(x0, y0)] =
              (SetPixel buf x0 y0 onb).bind (fun b => some b) := rfl
        cases hsp : SetPixel buf x0 y0 onb with
        | none =>
            dsimp only
            rw [hfold, hsp]
            rfl
        | some buf' =>
            dsimp only
            rw [if_pos hb, hfold, hsp]
            rfl
      · rw [if_neg hb] at h
        cases hv : bresVisit x1 y1 dx dy sx sy (bresStepX x0 sx dx dy err)
            (bresStepY y0 sy dx dy err) (bresStepErr dx dy err) fuel with
        | none =>
            rw [hv] at h
            exact Option.noConfusion h
        | some ps' =>
            rw [hv] at h
            have hps : (x0, y0) :: ps' = ps := Option.some.inj h
            subst hps
            have hfold : List.foldlM (fun b p => SetPixel b p.1 p.2 onb) buf
                ((x0, y0) :: ps') =
                  (SetPixel buf x0 y0 onb).bind
                    (fun b => List.foldlM
                      (fun b p => SetPixel b p.1 p.2 onb) b ps') := rfl
            cases hsp : SetPixel buf x0 y0 onb with
            | none =>
                dsimp only
                rw [hfold, hsp]
                rfl
            | some buf' =>
                dsimp only
                rw [if_neg hb, ih buf' _ _ _ ps' hv, hfold, hsp]
                rfl

/-- `s * (a - b) = 0` forces `a = b` when `s = ±1`. -/
theorem step_unit_eq (s a b : Int) (hs : s = 1 ∨ s = -1)
    (h : s * (a - b) = 0) : a = b := by
  rcases hs with h' | h' <;> subst h' <;> omega

/-- The loop invariant of the Bresenham loop.  Writing `u = sx * (x1 -
x0)` and `v = sy * (y1 - y0)` for the signed remaining distances, the
state satisfies `0 ≤ u ≤ dx`, `0 ≤ v ≤ -dy` and `err = dx + dy +
(-dy) * u - dx * v`; under it the loop reaches `(x1, y1)` within `u + v`
further iterations, visiting only points between the current point and
the target, starting at the current point and ending at the target. -/
theorem bresVisit_spec (x1 y1 dx dy sx sy : Int)
    (hsx : sx = 1 ∨ sx = -1) (hsy : sy = 1 ∨ sy = -1)
    (hdx : 0 ≤ dx) (hdy : dy ≤ 0) :
    ∀ (fuel : Nat) (x0 y0 err : Int),
      0 ≤ sx * (x1 - x0) → sx * (x1 - x0) ≤ dx →
      0 ≤ sy * (y1 - y0) → sy * (y1 - y0) ≤ -dy →
      err = dx + dy + (-dy) * (sx * (x1 - x0)) - dx * (sy * (y1 - y0)) →
      sx * (x1 - x0) + sy * (y1 - y0) < (fuel : Int) →
      ∃ ps : List (Int × Int),
        bresVisit x1 y1 dx dy sx sy x0 y0 err fuel = some ps ∧
        ps.head? = some (x0, y0) ∧
        ps.getLast? = some (x1, y1) ∧
        ∀ p ∈ ps,
          0 ≤ sx * (x1 - p.1) ∧ sx * (x1 - p.1) ≤ sx * (x1 - x0) ∧
          0 ≤ sy * (y1 - p.2) ∧ sy * (y1 - p.2) ≤ sy * (y1 - y0) := by
  have hsx2 : sx * sx = 1 := by rcases hsx with h | h <;> subst h <;> norm_num
  have hsy2 : sy * sy = 1 := by rcases hsy with h | h <;> subst h <;> norm_num
  intro fuel
  induction fuel with
  | zero =>
      intro x0 y0 err hu0 _ hv0 _ _ hfuel
      norm_num at hfuel
      linarith
  | succ fuel ih =>
      intro x0 y0 err hu0 hua hv0 hvb herr hfuel
      push_cast at hfuel
      rcases Decidable.em (x0 = x1 ∧ y0 = y1) with hb | hb
      · refine ⟨[(x0, y0)], ?_, rfl, ?_, ?_⟩
        · rw [bresVisit_succ, if_pos hb]
        · show some (x0, y0) = some (x1, y1)
          rw [hb.1, hb.2]
        · intro p hp
          rw [List.mem_singleton] at hp
          subst hp
          exact ⟨hu0, le_refl _, hv0, le_refl _⟩
      · -- at least one coordinate still has distance to cover
        have hxy : ¬(sx * (x1 - x0) = 0 ∧ sy * (y1 - y0) = 0) := by
          intro ⟨h0, h1⟩
          exact hb ⟨(step_unit_eq sx x1 x0 hsx h0).symm,
            (step_unit_eq sy y1 y0 hsy h1).symm⟩
        -- if the x-step fires then x has distance left (no overshoot)
        have hcA : dy ≤ 2 * err → 1 ≤ sx * (x1 - x0) := by
          intro hc
          by_contra hnot
          have hA0 : sx * (x1 - x0) = 0 := le_antisymm (by linarith) hu0
          have hB1 : 1 ≤ sy * (y1 - y0) := by
            have h1 : sy * (y1 - y0) ≠ 0 := fun h1 => hxy ⟨hA0, h1⟩
            have := lt_of_le_of_ne hv0 (Ne.symm h1)
            linarith
          have hdy1 : dy ≤ -1 := by linarith
          have hP : dx * 1 ≤ dx * (sy * (y1 - y0)) :=
            mul_le_mul_of_nonneg_left hB1 hdx
          rw [mul_one] at hP
          rw [hA0, mul_zero, add_zero] at herr
          linarith
        -- if the y-step fires then y has distance left (no overshoot)
        have hcB : 2 * err ≤ dx → 1 ≤ sy * (y1 - y0) := by
          intro hc
          by_contra hnot
          have hB0 : sy * (y1 - y0) = 0 := le_antisymm (by linarith) hv0
          have hA1 : 1 ≤ sx * (x1 - x0) := by
            have h0 : sx * (x1 - x0) ≠ 0 := fun h0 => hxy ⟨h0, hB0⟩
            have := lt_of_le_of_ne hu0 (Ne.symm h0)
            linarith
          have hQ : (-dy) * 1 ≤ (-dy) * (sx * (x1 - x0)) :=
            mul_le_mul_of_nonneg_left hA1 (by linarith)
          rw [mul_one] at hQ
          rw [hB0, mul_zero, sub_zero] at herr
          linarith
        -- at least one of the two steps fires
        have hor : dy ≤ 2 * err ∨ 2 * err ≤ dx := by
          rcases le_or_lt dy (2 * err) with h | h
          · exact Or.inl h
          · right; linarith
        have hu' : sx * (x1 - (x0 + sx)) = sx * (x1 - x0) - 1 := by
          have h : sx * (x1 - (x0 + sx)) = sx * (x1 - x0) - sx * sx := by ring
          rw [h, hsx2]
        have hv' : sy * (y1 - (y0 + sy)) = sy * (y1 - y0) - 1 := by
          have h : sy * (y1 - (y0 + sy)) = sy * (y1 - y0) - sy * sy := by ring
          rw [h, hsy2]
        rcases Decidable.em (dy ≤ 2 * err) with hc1 | hc1 <;>
          rcases Decidable.em (2 * err ≤ dx) with hc2 | hc2
        · -- both steps fire
          have hA1 := hcA hc1
          have hB1 := hcB hc2
          have hX : bresStepX x0 sx dx dy err = x0 + sx := by
            unfold bresStepX; rw [if_pos hc1]
          have hY : bresStepY y0 sy dx dy err = y0 + sy := by
            unfold bresStepY; rw [if_pos hc2]
          have hE : bresStepErr dx dy err = err + dy + dx := by
            simp only [bresStepErr, if_pos hc1, if_pos hc2]
          obtain ⟨ps', h1, h2, h3, h4⟩ := ih (x0 + sx) (y0 + sy)
            (err + dy + dx)
            (by rw [hu']; linarith) (by rw [hu']; linarith)
            (by rw [hv']; linarith) (by rw [hv']; linarith)
            (by rw [hu', hv']; linear_combination herr)
            (by rw [hu', hv']; linarith)
          refine ⟨(x0, y0) :: ps', ?_, rfl, ?_, ?_⟩
          · rw [bresVisit_succ, if_neg hb, hX, hY, hE, h1]
            rfl
          · cases ps' with
            | nil => exact Option.noConfusion h2
            | cons q qs => rw [List.getLast?_cons_cons]; exact h3
          · intro p hp
            rcases List.mem_cons.mp hp with rfl | hp'
            · exact ⟨hu0, le_refl _, hv0, le_refl _⟩
            · obtain ⟨b1, b2, b3, b4⟩ := h4 p hp'
              rw [hu'] at b2
              rw [hv'] at b4
              exact ⟨b1, by linarith, b3, by linarith⟩
        · -- only the x-step fires
          have hA1 := hcA hc1
          have hX : bresStepX x0 sx dx dy err = x0 + sx := by
            unfold bresStepX; rw [if_pos hc1]
          have hY : bresStepY y0 sy dx dy err = y0 := by
            unfold bresStepY; rw [if_neg hc2]
          have hE : bresStepErr dx dy err = err + dy := by
            simp only [bresStepErr, if_pos hc1, if_neg hc2]
          obtain ⟨ps', h1, h2, h3, h4⟩ := ih (x0 + sx) y0 (err + dy)
            (by rw [hu']; linarith) (by rw [hu']; linarith)
            hv0 hvb
            (by rw [hu']; linear_combination herr)
            (by rw [hu']; linarith)
          refine ⟨(x0, y0) :: ps', ?_, rfl, ?_, ?_⟩
          · rw [bresVisit_succ, if_neg hb, hX, hY, hE, h1]
            rfl
          · cases ps' with
            | nil => exact Option.noConfusion h2
            | cons q qs => rw [List.getLast?_cons_cons]; exact h3
          · intro p hp
            rcases List.mem_cons.mp hp with rfl | hp'
            · exact ⟨hu0, le_refl _, hv0, le_refl _⟩
            · obtain ⟨b1, b2, b3, b4⟩ := h4 p hp'
              rw [hu'] at b2
              exact ⟨b1, by linarith, b3, b4⟩
        · -- only the y-step fires
          have hB1 := hcB hc2
          have hX : bresStepX x0 sx dx dy err = x0 := by
            unfold bresStepX; rw [if_neg hc1]
          have hY : bresStepY y0 sy dx dy err = y0 + sy := by
            unfold bresStepY; rw [if_pos hc2]
          have hE : bresStepErr dx dy err = err + dx := by
            simp only [bresStepErr, if_neg hc1, if_pos hc2]
          obtain ⟨ps', h1, h2, h3, h4⟩ := ih x0 (y0 + sy) (err + dx)
            hu0 hua
            (by rw [hv']; linarith) (by rw [hv']; linarith)
            (by rw [hv']; linear_combination herr)
            (by rw [hv']; linarith)
          refine ⟨(x0, y0) :: ps', ?_, rfl, ?_, ?_⟩
          · rw [bresVisit_succ, if_neg hb, hX, hY, hE, h1]
            rfl
          · cases ps' with
            | nil => exact Option.noConfusion h2
            | cons q qs => rw [List.getLast?_cons_cons]; exact h3
          · intro p hp
            rcases List.mem_cons.mp hp with rfl | hp'
            · exact ⟨hu0, le_refl _, hv0, le_refl _⟩
            · obtain ⟨b1, b2, b3, b4⟩ := h4 p hp'
              rw [hv'] at b4
              exact ⟨b1, b2, b3, by linarith⟩
        · rcases hor with h | h
          · exact absurd h hc1
          · exact absurd h hc2

/-- The visited points of every `draw_line` call: the loop terminates
within its fuel, starts at `(x0, y0)`, ends at `(x1, y1)` and stays
inside the bounding rectangle of the two endpoints. -/
theorem bresPoints_spec (x0 y0 x1 y1 : Int) :
    ∃ ps : List (Int × Int),
      bresPoints x0 y0 x1 y1 = some ps ∧
      ps.head? = some (x0, y0) ∧
      ps.getLast? = some (x1, y1) ∧
      ∀ p ∈ ps,
        min x0 x1 ≤ p.1 ∧ p.1 ≤ max x0 x1 ∧
        min y0 y1 ≤ p.2 ∧ p.2 ≤ max y0 y1 := by
  have hsx : (if x0 < x1 then (1 : Int) else -1) = 1 ∨
      (if x0 < x1 then (1 : Int) else -1) = -1 := by
    rcases Decidable.em (x0 < x1) with h | h
    · rw [if_pos h]; exact Or.inl rfl
    · rw [if_neg h]; exact Or.inr rfl
  have hsy : (if y0 < y1 then (1 : Int) else -1) = 1 ∨
      (if y0 < y1 then (1 : Int) else -1) = -1 := by
    rcases Decidable.em (y0 < y1) with h | h
    · rw [if_pos h]; exact Or.inl rfl
    · rw [if_neg h]; exact Or.inr rfl
  have hu_init : (if x0 < x1 then (1 : Int) else -1) * (x1 - x0) = |x1 - x0| := by
    rcases Decidable.em (x0 < x1) with h | h
    · rw [if_pos h, one_mul, abs_of_nonneg (by omega)]
    · rw [if_neg h, abs_of_nonpos (by omega)]; ring
  have hv_init : (if y0 < y1 then (1 : Int) else -1) * (y1 - y0) = |y1 - y0| := by
    rcases Decidable.em (y0 < y1) with h | h
    · rw [if_pos h, one_mul, abs_of_nonneg (by omega)]
    · rw [if_neg h, abs_of_nonpos (by omega)]; ring
  have htn : (((|x1 - x0| - -|y1 - y0|).toNat : Int)) = |x1 - x0| + |y1 - y0| := by
    rw [Int.toNat_of_nonneg (by rw [sub_neg_eq_add]; positivity)]
    ring
  obtain ⟨ps, h1, h2, h3, h4⟩ := bresVisit_spec x1 y1 (|x1 - x0|) (-|y1 - y0|)
    (if x0 < x1 then 1 else -1) (if y0 < y1 then 1 else -1) hsx hsy
    (abs_nonneg _) (by simp [abs_nonneg])
    ((|x1 - x0| - -|y1 - y0|).toNat + 1) x0 y0 (|x1 - x0| + -|y1 - y0|)
    (by rw [hu_init]; exact abs_nonneg _)
    (by rw [hu_init])
    (by rw [hv_init]; exact abs_nonneg _)
    (by rw [hv_init]; ring_nf; exact le_refl _)
    (by rw [hu_init, hv_init]; ring)
    (by rw [hu_init, hv_init]; push_cast; rw [htn]; linarith)
  refine ⟨ps, h1, h2, h3, ?_⟩
  intro p hp
  obtain ⟨b1, b2, b3, b4⟩ := h4 p hp
  rw [hu_init] at b2
  rw [hv_init] at b4
  constructor
  · rcases Decidable.em (x0 < x1) with h | h
    · rw [if_pos h, one_mul] at b1 b2
      rw [abs_of_nonneg (by omega)] at b2
      rw [min_eq_left (by omega : x0 ≤ x1)]
      omega
    · rw [if_neg h, neg_one_mul] at b1 b2
      rw [abs_of_nonpos (by omega)] at b2
      rw [min_eq_right (by omega : x1 ≤ x0)]
      omega
  constructor
  · rcases Decidable.em (x0 < x1) with h | h
    · rw [if_pos h, one_mul] at b1 b2
      rw [abs_of_nonneg (by omega)] at b2
      rw [max_eq_right (by omega : x0 ≤ x1)]
      omega
    · rw [if_neg h, neg_one_mul] at b1 b2
      rw [abs_of_nonpos (by omega)] at b2
      rw [max_eq_left (by omega : x1 ≤ x0)]
      omega
  constructor
  · rcases Decidable.em (y0 < y1) with h | h
    · rw [if_pos h, one_mul] at b3 b4
      rw [abs_of_nonneg (by omega)] at b4
      rw [min_eq_left (by omega : y0 ≤ y1)]
      omega
    · rw [if_neg h, neg_one_mul] at b3 b4
      rw [abs_of_nonpos (by omega)] at b4
      rw [min_eq_right (by omega : y1 ≤ y0)]
      omega
  · rcases Decidable.em (y0 < y1) with h | h
    · rw [if_pos h, one_mul] at b3 b4
      rw [abs_of_nonneg (by omega)] at b4
      rw [max_eq_right (by omega : y0 ≤ y1)]
      omega
    · rw [if_neg h, neg_one_mul] at b3 b4
      rw [abs_of_nonpos (by omega)] at b4
      rw [max_eq_left (by omega : y1 ≤ y0)]
      omega

/-- `sh_setPixel_get_self` restated for in-bounds `Int` coordinates. -/
theorem sh_setPixel_get_self_int (buf : Buf) (x y : Int) (onb : Bool)
    (hx0 : 0 ≤ x) (hx : x < 128) (hy0 : 0 ≤ y) (hy : y < 64)
    (hlen : buf.length = 1024) :
    GetPixel (SH1106_SetPixel buf x y onb) x.toNat y.toNat = onb := by
  have h := sh_setPixel_get_self buf x.toNat y.toNat onb (by omega) (by omega)
    hlen
  rw [Int.toNat_of_nonneg hx0, Int.toNat_of_nonneg hy0] at h
  exact h

theorem sh_getPixel_mono (buf : Buf) (x y : Int) (a b : Nat)
    (h : GetPixel buf a b = true) :
    GetPixel (SH1106_SetPixel buf x y true) a b = true := by
  unfold GetPixel at h ⊢
  exact sh_setPixel_mono buf x y _ _ h

/-- Folding the pixel writer with `on = true` over a list of in-bounds
points sets every one of them. -/
theorem foldl_setPixel_true :
    ∀ (ps : List (Int × Int)) (buf : Buf), buf.length = 1024 →
      (∀ q ∈ ps, 0 ≤ q.1 ∧ q.1 < 128 ∧ 0 ≤ q.2 ∧ q.2 < 64) →
      ∀ p ∈ ps,
        GetPixel (ps.foldl (fun b q => SH1106_SetPixel b q.1 q.2 true) buf)
          p.1.toNat p.2.toNat = true := by
  intro ps
  induction ps with
  | nil => intro buf _ _ p hp; exact absurd hp (List.not_mem_nil p)
  | cons q ps ih =>
      intro buf hlen hq p hp
      rw [List.foldl_cons]
      rcases List.mem_cons.mp hp with rfl | hp'
      · have hqb := hq p (List.mem_cons_self ..)
        have hinit : GetPixel (SH1106_SetPixel buf p.1 p.2 true)
            p.1.toNat p.2.toNat = true :=
          sh_setPixel_get_self_int buf p.1 p.2 true hqb.1 hqb.2.1 hqb.2.2.1
            hqb.2.2.2 hlen
        exact foldl_preserve
          (fun b : Buf => GetPixel b p.1.toNat p.2.toNat = true) _
          (fun b a hb => sh_getPixel_mono b a.1 a.2 _ _ hb) ps _ hinit
      · exact ih (SH1106_SetPixel buf q.1 q.2 true)
          (by rw [sh_setPixel_length, hlen])
          (fun r hr => hq r (List.mem_cons_of_mem _ hr)) p hp'

/-- `SH1106_DrawLine` folds its pixel writer over the visited points. -/
theorem sh_drawLine_eq_points (buf : Buf) (x0 y0 x1 y1 : Int) (onb : Bool) :
    SH1106_DrawLine buf x0 y0 x1 y1 onb =
      (bresPoints x0 y0 x1 y1).map
        (fun ps => ps.foldl (fun b p => SH1106_SetPixel b p.1 p.2 onb) buf) := by
  show SH1106_drawLineLoop onb x1 y1 (|x1 - x0|) (-|y1 - y0|)
      (if x0 < x1 then 1 else -1) (if y0 < y1 then 1 else -1) buf x0 y0
      (|x1 - x0| + -|y1 - y0|) ((|x1 - x0| - -|y1 - y0|).toNat + 1) = _
  rw [sh_drawLineLoop_eq_visit]
  rfl

/-- With the visited points known, the SSD1306 `DrawLine` is their
`Option`-monadic fold through the asserting pixel writer. -/
theorem drawLine_eq_points (buf : Buf) (x0 y0 x1 y1 : Int) (onb : Bool)
    (ps : List (Int × Int)) (h : bresPoints x0 y0 x1 y1 = some ps) :
    DrawLine buf x0 y0 x1 y1 onb =
      some (List.foldlM (fun b p => SetPixel b p.1 p.2 onb) buf ps) := by
  show drawLineLoop onb x1 y1 (|x1 - x0|) (-|y1 - y0|)
      (if x0 < x1 then 1 else -1) (if y0 < y1 then 1 else -1) buf x0 y0
      (|x1 - x0| + -|y1 - y0|) ((|x1 - x0| - -|y1 - y0|).toNat + 1) = _
  exact drawLineLoop_eq_visit onb x1 y1 (|x1 - x0|) (-|y1 - y0|)
    (if x0 < x1 then 1 else -1) (if y0 < y1 then 1 else -1)
    ((|x1 - x0| - -|y1 - y0|).toNat + 1) buf x0 y0
    (|x1 - x0| + -|y1 - y0|) ps h

/-- A degenerate line plots its single point and stops (SH1106). -/
theorem sh_drawLine_self (buf : Buf) (x y : Int) (onb : Bool) :
    SH1106_DrawLine buf x y x y onb = some (SH1106_SetPixel buf x y onb) := by
  show SH1106_drawLineLoop onb x y (|x - x|) (-|y - y|)
      (if x < x then 1 else -1) (if y < y then 1 else -1) buf x y
      (|x - x| + -|y - y|) ((|x - x| - -|y - y|).toNat + 1) = _
  have hf : ((|x - x| - -|y - y|).toNat + 1) = 0 + 1 := by simp
  rw [hf, sh_drawLineLoop_succ, if_pos ⟨rfl, rfl⟩]

/-- A degenerate line plots its single point and stops (SSD1306). -/
theorem drawLine_self (buf : Buf) (x y : Int) (onb : Bool) :
    DrawLine buf x y x y onb = some (SetPixel buf x y onb) := by
  show drawLineLoop onb x y (|x - x|) (-|y - y|)
      (if x < x then 1 else -1) (if y < y then 1 else -1) buf x y
      (|x - x| + -|y - y|) ((|x - x| - -|y - y|).toNat + 1) = _
  have hf : ((|x - x| - -|y - y|).toNat + 1) = 0 + 1 := by simp
  rw [hf, drawLineLoop_succ]
  cases hsp : SetPixel buf x y onb with
  | none => rfl
  | some buf' =>
      dsimp only
      rw [if_pos ⟨rfl, rfl⟩]

/-! ## Claim C8: the Bresenham loop terminates -/

/-- C8: for every pair of integer endpoints the Bresenham loop of
`DrawLine` / `SH1106_DrawLine` terminates: the visited-point sequence is
finite and its last point is exactly `(x1, y1)`, and both drivers'
loops complete within the proven fuel bound `dx - dy + 1` (they never
return the fuel-exhaustion marker). -/
theorem C8_draw_line_terminates :
    ∀ (x0 y0 x1 y1 : Int) (buf : Buf) (onb : Bool),
      (∃ ps : List (Int × Int), bresPoints x0 y0 x1 y1 = some ps ∧
        ps.head? = some (x0, y0) ∧ ps.getLast? = some (x1, y1)) ∧
      (SH1106_DrawLine buf x0 y0 x1 y1 onb).isSome = true ∧
      (DrawLine buf x0 y0 x1 y1 onb).isSome = true := by
  intro x0 y0 x1 y1 buf onb
  obtain ⟨ps, h1, h2, h3, _⟩ := bresPoints_spec x0 y0 x1 y1
  refine ⟨⟨ps, h1, h2, h3⟩, ?_, ?_⟩
  · rw [sh_drawLine_eq_points, h1]
    rfl
  · rw [drawLine_eq_points buf x0 y0 x1 y1 onb ps h1]
    rfl

/-! ## Claim C5: draw_line endpoints and clipping -/

/-- C5 counterexample: the claim says out-of-range segments are clipped
pixel-by-pixel rather than the whole line being rejected, for both
variants; but the SSD1306 `DrawLine` from `(126, 0)` to `(130, 0)`
aborts at the assertion in `SetPixel` when the line leaves the display
(inner `none`), instead of clipping, while the SH1106 variant does
clip and completes. -/
theorem C5_counterexample :
    DrawLine zeroBuf 126 0 130 0 true = some none ∧
    (SH1106_DrawLine zeroBuf 126 0 130 0 true).isSome = true := by
  exact ⟨rfl, rfl⟩

/-- C5 (amended): with both endpoints in bounds (on a 1024-byte buffer)
`draw_line` sets both `(x0, y0)` and `(x1, y1)` in both variants, which
perform the identical update; a degenerate line performs exactly one
`set_pixel` call; and every visited point delegates to `set_pixel`, so
in the SH1106 variant out-of-range segments are clipped pixel-by-pixel
(the call always completes), while the asserting SSD1306 `set_pixel`
aborts the whole call at the first out-of-range point. -/
theorem C5_draw_line_endpoints :
    (∀ (buf : Buf) (x0 y0 x1 y1 : Int),
      buf.length = 1024 →
      0 ≤ x0 → x0 < 128 → 0 ≤ y0 → y0 < 64 →
      0 ≤ x1 → x1 < 128 → 0 ≤ y1 → y1 < 64 →
        DrawLine buf x0 y0 x1 y1 true =
          Option.map some (SH1106_DrawLine buf x0 y0 x1 y1 true) ∧
        GetPixel ((SH1106_DrawLine buf x0 y0 x1 y1 true).getD buf)
          x0.toNat y0.toNat = true ∧
        GetPixel ((SH1106_DrawLine buf x0 y0 x1 y1 true).getD buf)
          x1.toNat y1.toNat = true) ∧
    (∀ (buf : Buf) (x y : Int) (onb : Bool),
      SH1106_DrawLine buf x y x y onb = some (SH1106_SetPixel buf x y onb) ∧
      DrawLine buf x y x y onb = some (SetPixel buf x y onb)) ∧
    (∀ (buf : Buf) (x0 y0 x1 y1 : Int) (onb : Bool),
      (SH1106_DrawLine buf x0 y0 x1 y1 onb).isSome = true) := by
  refine ⟨?_, fun buf x y onb => ⟨sh_drawLine_self buf x y onb,
    drawLine_self buf x y onb⟩, ?_⟩
  · intro buf x0 y0 x1 y1 hlen hx00 hx01 hy00 hy01 hx10 hx11 hy10 hy11
    obtain ⟨ps, h1, h2, h3, h4⟩ := bresPoints_spec x0 y0 x1 y1
    have hm0 : (0 : Int) ≤ min x0 x1 := le_min hx00 hx10
    have hM0 : max x0 x1 < 128 := max_lt hx01 hx11
    have hm1 : (0 : Int) ≤ min y0 y1 := le_min hy00 hy10
    have hM1 : max y0 y1 < 64 := max_lt hy01 hy11
    have hbnd : ∀ q ∈ ps, 0 ≤ q.1 ∧ q.1 < 128 ∧ 0 ≤ q.2 ∧ q.2 < 64 := by
      intro q hq
      obtain ⟨c1, c2, c3, c4⟩ := h4 q hq
      exact ⟨by linarith, by linarith, by linarith, by linarith⟩
    have hsh : SH1106_DrawLine buf x0 y0 x1 y1 true =
        some (ps.foldl (fun b p => SH1106_SetPixel b p.1 p.2 true) buf) := by
      rw [sh_drawLine_eq_points, h1]
      rfl
    have hM : List.foldlM (fun b p => SetPixel b p.1 p.2 true) buf ps =
        some (ps.foldl (fun b p => SH1106_SetPixel b p.1 p.2 true) buf) :=
      foldlM_eq_some_foldl _ _ ps buf (fun b' a ha =>
        setPixel_eq_sh b' a.1 a.2 true (hbnd a ha).1 (hbnd a ha).2.1
          (hbnd a ha).2.2.1 (hbnd a ha).2.2.2)
    refine ⟨?_, ?_, ?_⟩
    · rw [drawLine_eq_points buf x0 y0 x1 y1 true ps h1, hM, hsh]
      rfl
    · rw [hsh]
      exact foldl_setPixel_true ps buf hlen hbnd (x0, y0)
        (List.mem_of_mem_head? (by simp [h2]))
    · rw [hsh]
      exact foldl_setPixel_true ps buf hlen hbnd (x1, y1)
        (List.mem_of_mem_getLast? (by simp [h3]))
  · intro buf x0 y0 x1 y1 onb
    obtain ⟨ps, h1, _, _, _⟩ := bresPoints_spec x0 y0 x1 y1
    rw [sh_drawLine_eq_points, h1]
    rfl

/-- C5 witness: the line from `(0, 0)` to `(3, 2)` on the all-zero
buffer sets both endpoints, and the degenerate line at `(7, 9)` is one
pixel write. -/
theorem C5_draw_line_endpoints_witness :
    GetPixel ((SH1106_DrawLine zeroBuf 0 0 3 2 true).getD zeroBuf) 3 2 =
      true ∧
    SH1106_DrawLine zeroBuf 7 9 7 9 false =
      some (SH1106_SetPixel zeroBuf 7 9 false) :=
  ⟨(C5_draw_line_endpoints.1 zeroBuf 0 0 3 2 zeroBuf_length (by omega)
      (by omega) (by omega) (by omega) (by omega) (by omega) (by omega)
      (by omega)).2.2,
   (C5_draw_line_endpoints.2.1 zeroBuf 7 9 false).1⟩

end RpiPico
